import Mathlib

set_option maxRecDepth 100000

/-!
# Verification of the proxy-lab web proxy (src/proxy.c, src/cache.c, src/cache.h)

A shallow embedding of the LRU web-object cache and of the fragments of the
worker pipeline (`clientRequestHandler`, `create_server_http_request`,
`clienterror`) that the verified claims are about.

Modelling conventions:
* The doubly linked list of `cache_block`s (head = least recently used,
  tail = most recently used) is modelled as a Lean `List` whose first
  element is the head.
* Sizes (`size_t`) are `Nat`; `readReferenceCnt` (a C `int`) is `Int` so
  that a decrement below zero is representable.
* The global mutex serialises every cache operation, so each operation is
  modelled as a pure state transformer on the `Cache` value.
* `cache_eviction` busy-waits (unlock/relock) while the head block's
  reference count is nonzero; in a sequential model no other thread can
  drain the count, so that spin is modelled as divergence: the eviction
  (and the insert that triggered it) returns `none`.
-/

/-- `MAX_CACHE_SIZE` from cache.h: 1024 * 1024 bytes. -/
def MAX_CACHE_SIZE : Nat := 1024 * 1024

/-- `MAX_OBJECT_SIZE` from cache.h: 100 * 1024 bytes. -/
def MAX_OBJECT_SIZE : Nat := 100 * 1024

/-- Modelled from the spec: `MAXLINE` of csapp.h (not under src/); §6 fixes the
line-reader maximum at 8 KiB. -/
def MAXLINE : Nat := 8192

/-- Modelled from the spec: `MAXBUF` of csapp.h (not under src/); the body
buffer of `clienterror` uses the customary 8 KiB value matching `MAXLINE`. -/
def MAXBUF : Nat := 8192

/-- One cache block (`cache_block` in cache.h).  The `nextBlock` /
`previousBlock` pointers are represented by the block's position in the
enclosing list. -/
structure cache_block where
  cache_uri_key : String
  cache_obj : String
  cache_obj_size : Nat
  readReferenceCnt : Int
  deriving Repr, DecidableEq

/-- The global cache (`Cache` in cache.h): blocks from head (LRU, front of
the list) to tail (MRU, back of the list), plus the running `cache_size`. -/
structure Cache where
  blocks : List cache_block
  cache_size : Nat
  deriving Repr, DecidableEq

/-- The state set up by `cache_init`. -/
def cache_init : Cache := { blocks := [], cache_size := 0 }

/-- Index of the first block whose `cache_uri_key` compares equal
(`strcmp == 0`) to `url`, walking from the head exactly as the `while`
loop of `cache_find` does. -/
def findKeyIdx (url : String) : List cache_block → Option Nat
  | [] => none
  | b :: rest =>
    if url = b.cache_uri_key then some 0
    else (findKeyIdx url rest).map (· + 1)

/-- `cache_find` (cache.c lines 69-126): on a hit the block's
`readReferenceCnt` is incremented and the block is spliced to the tail
(most recently used) following the four explicit cases of the source:
hit at head with a successor, hit at tail with a predecessor, hit in the
middle, hit of the only block.  Returns the (updated) block and the new
cache state; `(none, c)` on a miss. -/
def cache_find (url : String) (c : Cache) : Option cache_block × Cache :=
  match findKeyIdx url c.blocks with
  | none => (none, c)
  | some i =>
    match c.blocks.get? i with
    | none => (none, c)
    | some blk =>
      let blk' := { blk with readReferenceCnt := blk.readReferenceCnt + 1 }
      let n := c.blocks.length
      let blocks' :=
        if i = 0 ∧ 1 < n then
          c.blocks.drop 1 ++ [blk']
        else if i = n - 1 ∧ 0 < i then
          c.blocks.set i blk'
        else if 0 < i ∧ i < n - 1 then
          (c.blocks.take i ++ c.blocks.drop (i + 1)) ++ [blk']
        else
          c.blocks.set i blk'
      (some blk', { c with blocks := blocks' })

/-- The eviction loop of `cache_eviction` (cache.c lines 140-166): while
`sizeFreed < reqBufSize` and a head block exists, busy-wait for the head's
reference count to drain, then free the head and account its size.  The
busy wait cannot terminate in a sequential model, hence `none` when a
pinned head is met.  Returns the remaining blocks and updated
`cache_size`. -/
def evictLoop (reqBufSize : Nat) : List cache_block → Nat → Nat → Option (List cache_block × Nat)
  | blocks, cacheSize, sizeFreed =>
    if sizeFreed < reqBufSize then
      match blocks with
      | [] => some ([], cacheSize)
      | b :: rest =>
        if b.readReferenceCnt ≠ 0 then none
        else evictLoop reqBufSize rest (cacheSize - b.cache_obj_size)
               (sizeFreed + b.cache_obj_size)
    else
      some (blocks, cacheSize)

/-- `cache_eviction` (cache.c lines 136-170) as a state transformer. -/
def cache_eviction (reqBufSize : Nat) (c : Cache) : Option Cache :=
  (evictLoop reqBufSize c.blocks c.cache_size 0).map
    (fun p => { blocks := p.1, cache_size := p.2 })

/-- `cache_uri` (cache.c lines 181-215): if the updated total would exceed
`MAX_CACHE_SIZE`, first evict exactly `(cache_size + buffSize) -
MAX_CACHE_SIZE` bytes; then link a fresh block at the tail (initialising an
empty list when head and tail are both null) with the copied object,
its size, the supplied key, and a zero reference count.  There is no check
whether `uri` is already present. -/
def cache_uri (uri : String) (buf : String) (buffSize : Nat) (c : Cache) : Option Cache :=
  let updatedtotalCacheSize := c.cache_size + buffSize
  let evicted :=
    if updatedtotalCacheSize > MAX_CACHE_SIZE then
      cache_eviction (c.cache_size + buffSize - MAX_CACHE_SIZE) c
    else
      some c
  evicted.map (fun c1 =>
    let newBlock : cache_block :=
      { cache_uri_key := uri, cache_obj := buf, cache_obj_size := buffSize
        readReferenceCnt := 0 }
    let blocks' :=
      if c1.blocks = [] then [newBlock]
      else c1.blocks ++ [newBlock]
    { blocks := blocks', cache_size := c1.cache_size + buffSize })

/-- Decrement the reference count of the block at index `i`, leaving the
rest unchanged. -/
def decRefAt : List cache_block → Nat → List cache_block
  | [], _ => []
  | b :: rest, 0 => { b with readReferenceCnt := b.readReferenceCnt - 1 } :: rest
  | b :: rest, i + 1 => b :: decRefAt rest i

/-- The reader-release path of the worker (proxy.c lines 230-232):
`reqCachePtr->readReferenceCnt--` under the mutex — an unconditional
decrement of the handle's block, with no zero check. -/
def releaseRef (c : Cache) (i : Nat) : Cache :=
  { c with blocks := decRefAt c.blocks i }

/-- Worker step 11 (proxy.c lines 313-324): after the relay loop, if the
running total `sizebuf` is strictly below `MAX_OBJECT_SIZE` and a fresh
`cache_find uri` misses, insert the candidate via `cache_uri`; when the
recheck finds an entry the insert is skipped and control falls off the end
of `clientRequestHandler` — nothing decrements the reference count that
`cache_find` just incremented. -/
def workerCacheInsertStep (uri respBody : String) (sizebuf : Nat) (c : Cache) : Option Cache :=
  if sizebuf < MAX_OBJECT_SIZE then
    match cache_find uri c with
    | (none, c1) => cache_uri uri respBody sizebuf c1
    | (some _, c1) => some c1
  else
    some c

/-- The tee of the relay loop (proxy.c lines 301-311): for each chunk of
`n` bytes read from the origin, if `sizebuf < MAX_OBJECT_SIZE` then
`memcpy(ResponseObjectbuf + sizebuf, buf, n)`; afterwards `sizebuf += n`
unconditionally.  `teeWrites chunks sizebuf` returns the list of
`(offset, length)` pairs of the memcpy calls performed. -/
def teeWrites : List Nat → Nat → List (Nat × Nat)
  | [], _ => []
  | n :: rest, sizebuf =>
    (if sizebuf < MAX_OBJECT_SIZE then [(sizebuf, n)] else []) ++
      teeWrites rest (sizebuf + n)

/-- Total number of bytes the relay loop ever memcpys into the candidate
buffer `ResponseObjectbuf`. -/
def bytesWrittenToBuf (chunks : List Nat) : Nat :=
  ((teeWrites chunks 0).map (·.2)).sum

/-- The running total `sizebuf` at the end of the relay loop. -/
def finalSizebuf (chunks : List Nat) : Nat := chunks.sum

/-! ## Upstream request builder (proxy.c `create_server_http_request`) -/

/-- `user_hdr` (proxy.c lines 53-55). -/
def user_hdr : String :=
  "User-Agent: Mozilla/5.0 (X11; Linux x86_64; rv:3.10.0) Gecko/20191101 Firefox/63.0.1\r\n"

/-- `conn_hdr` (proxy.c line 56). -/
def conn_hdr : String := "Connection: close\r\n"

/-- `prox_hdr` (proxy.c line 57). -/
def prox_hdr : String := "Proxy-Connection: close\r\n"

/-- `endof_hdr` (proxy.c line 58). -/
def endof_hdr : String := "\r\n"

/-- `connection_key` (proxy.c line 63). -/
def connection_key : String := "Connection"

/-- `user_agent_key` (proxy.c line 64). -/
def user_agent_key : String := "User-Agent"

/-- `proxy_connection_key` (proxy.c line 65). -/
def proxy_connection_key : String := "Proxy-Connection"

/-- `host_key` (proxy.c line 66). -/
def host_key : String := "Host"

/-- `strstr(hay, needle) != NULL` on character lists: the needle occurs as a
contiguous substring of the hay. -/
def hasSubstr (needle : List Char) : List Char → Bool
  | [] => needle.isPrefixOf []
  | ch :: rest => needle.isPrefixOf (ch :: rest) || hasSubstr needle rest

/-- Case-sensitive substring test, `strstr(hay, needle) != NULL`. -/
def strstrB (hay needle : String) : Bool :=
  hasSubstr needle.toList hay.toList

/-- The header-gathering loop of `create_server_http_request` (proxy.c lines
350-364): consume client lines until the empty `\r\n` line or exhaustion;
a line containing `Host` overwrites `host_hdr`; a line containing none of
`Connection`, `Proxy-Connection`, `User-Agent`, `Host` is appended to
`other_hdr`; the rest are dropped. -/
def gatherHeaders : List String → String → String → String × String
  | [], host_hdr, other_hdr => (host_hdr, other_hdr)
  | line :: rest, host_hdr, other_hdr =>
    if line = endof_hdr then (host_hdr, other_hdr)
    else if strstrB line host_key then gatherHeaders rest line other_hdr
    else if !strstrB line connection_key && !strstrB line proxy_connection_key &&
            !strstrB line user_agent_key && !strstrB line host_key then
      gatherHeaders rest host_hdr (other_hdr ++ line)
    else gatherHeaders rest host_hdr other_hdr

/-- `create_server_http_request` (proxy.c lines 343-373).  `clientLines` is
the sequence of header lines the client's rio reader yields (each with its
trailing CRLF).  The `port` argument is accepted but unused, as in the
source.  Output is the single upstream request string formed by the final
`sprintf`. -/
def create_server_http_request (hostname path : String) (port : Nat)
    (clientLines : List String) : String :=
  let request_hdr := "GET " ++ path ++ " HTTP/1.0\r\n"
  let gathered := gatherHeaders clientLines "" ""
  let host_hdr :=
    if gathered.1.length = 0 then "Host: " ++ hostname ++ "\r\n" else gathered.1
  request_hdr ++ host_hdr ++ conn_hdr ++ prox_hdr ++ user_hdr ++ gathered.2 ++ endof_hdr

/-- A client header line is forwarded verbatim when it matches none of the
four header keys (case-sensitive substring test). -/
def keepsHeaderLine (line : String) : Bool :=
  !strstrB line host_key && !strstrB line connection_key &&
    !strstrB line proxy_connection_key && !strstrB line user_agent_key

/-- The upstream request as the spec (§4.2) words it: request line, `Host`
copied from the client (the line the builder retains) or synthesized, the
three fixed headers, the remaining client lines that match none of the four
keys in order received, and the terminating CRLF.  Stated for comparison
with `create_server_http_request`. -/
def upstreamRequestSpec (hostname path : String) (clientLines : List String) : String :=
  let consumed := clientLines.takeWhile (fun l => l ≠ endof_hdr)
  let hostLines := consumed.filter (fun l => strstrB l host_key)
  let hostLine :=
    match hostLines.getLast? with
    | some l => l
    | none => "Host: " ++ hostname ++ "\r\n"
  let others := consumed.filter keepsHeaderLine
  "GET " ++ path ++ " HTTP/1.0\r\n" ++ hostLine ++ conn_hdr ++ prox_hdr ++
    user_hdr ++ String.join others ++ endof_hdr

/-! ## Request-line parsing (proxy.c lines 204-221) -/

/-- The whitespace class of C `isspace`, which delimits `%s` conversions and
is skipped by a whitespace directive in `sscanf`. -/
def isSpaceC (ch : Char) : Bool :=
  ch = ' ' || ch = '\t' || ch = '\n' || ch = '\r' || ch = '\x0b' || ch = '\x0c'

/-- One `%s` conversion of `sscanf`: skip whitespace, then read a maximal
nonempty run of non-whitespace characters; fail if the input ends before
any character is read. -/
def scanToken (input : List Char) : Option (List Char × List Char) :=
  let rest := input.dropWhile isSpaceC
  let tok := rest.takeWhile (fun ch => !isSpaceC ch)
  if tok.isEmpty then none else some (tok, rest.drop tok.length)

/-- A literal directive of `sscanf`: the literal must match exactly. -/
def scanLiteral (lit input : List Char) : Option (List Char) :=
  if lit.isPrefixOf input then some (input.drop lit.length) else none

/-- `sscanf(buf, "%s %s HTTP/1.%c", method, uri, version)` succeeding with
all three assignments (proxy.c line 205): two tokens, optional whitespace,
the literal `HTTP/1.`, then `%c` takes the very next character without
skipping whitespace. -/
def scanRequestLine (line : String) : Option (String × String × Char) := do
  let (m, r1) ← scanToken line.toList
  let (u, r2) ← scanToken r1
  let r3 := r2.dropWhile isSpaceC
  let r4 ← scanLiteral "HTTP/1.".toList r3
  match r4 with
  | [] => none
  | v :: _ => some (String.mk m, String.mk u, v)

/-- Outcome of the request-line checks in `clientRequestHandler`. -/
inductive ReqDecision where
  | bad400
  | notImpl501
  | proceed (method uri : String)
  deriving Repr, DecidableEq

/-- The request-line decision of `clientRequestHandler` (proxy.c lines
204-221): `400 Bad Request` when `sscanf` does not make all three
assignments or the version character is neither `0` nor `1`; otherwise
`501 Not Implemented` when the method is not exactly `GET`; otherwise the
worker proceeds (only this outcome reaches the origin-contacting code). -/
def requestLineDecision (line : String) : ReqDecision :=
  match scanRequestLine line with
  | none => .bad400
  | some (m, u, v) =>
    if v ≠ '0' ∧ v ≠ '1' then .bad400
    else if m ≠ "GET" then .notImpl501
    else .proceed m u

/-! ## Error pages (proxy.c `clienterror`, lines 440-483) -/

/-- The HTML body that `clienterror` formats with `snprintf` (proxy.c lines
448-457). -/
def errorBody (errnum shortmsg longmsg : String) : String :=
  "<!DOCTYPE html>\r\n" ++
  "<html>\r\n" ++
  "<head><title>Proxy Error</title></head>\r\n" ++
  "<body bgcolor=\"ffffff\">\r\n" ++
  "<h1>" ++ errnum ++ ": " ++ shortmsg ++ "</h1>\r\n" ++
  "<p>" ++ longmsg ++ "</p>\r\n" ++
  "<hr /><em>The Web Proxy</em>\r\n" ++
  "</body></html>\r\n"

/-- The response headers that `clienterror` formats (proxy.c lines
463-467), advertising `bodylen` as `Content-Length`. -/
def errorHeaders (errnum shortmsg : String) (bodylen : Nat) : String :=
  "HTTP/1.0 " ++ errnum ++ " " ++ shortmsg ++ "\r\n" ++
  "Content-Type: text/html\r\n" ++
  "Content-Length: " ++ toString bodylen ++ "\r\n\r\n"

/-- `clienterror` (proxy.c lines 440-483) as the sequence of writes issued
to the client socket.  `snprintf` returns the untruncated length; when
`bodylen >= MAXBUF` or `buflen >= MAXLINE` the function returns before any
write.  Otherwise the headers are written first, then the body. -/
def clienterror (errnum shortmsg longmsg : String) : List String :=
  let body := errorBody errnum shortmsg longmsg
  let bodylen := body.length
  if bodylen ≥ MAXBUF then []
  else
    let buf := errorHeaders errnum shortmsg bodylen
    let buflen := buf.length
    if buflen ≥ MAXLINE then []
    else [buf, body]

/-! ## Helper lemmas about the cache operations -/

/-- Sum of the object sizes of a list of blocks. -/
def sumSizes (l : List cache_block) : Nat := (l.map (·.cache_obj_size)).sum

theorem sumSizes_nil : sumSizes [] = 0 := rfl

theorem sumSizes_cons (b : cache_block) (l : List cache_block) :
    sumSizes (b :: l) = b.cache_obj_size + sumSizes l := by
  simp [sumSizes]

theorem sumSizes_append (l₁ l₂ : List cache_block) :
    sumSizes (l₁ ++ l₂) = sumSizes l₁ + sumSizes l₂ := by
  simp [sumSizes]

/-- An insert that fits under the cap performs no eviction and appends the
new block at the tail. -/
theorem cache_uri_no_evict (u b : String) (n : Nat) (c : Cache)
    (h : c.cache_size + n ≤ MAX_CACHE_SIZE) :
    cache_uri u b n c =
      some { blocks := c.blocks ++ [⟨u, b, n, 0⟩], cache_size := c.cache_size + n } := by
  have hgt : ¬ c.cache_size + n > MAX_CACHE_SIZE := by omega
  by_cases hb : c.blocks = [] <;>
    simp [cache_uri, hgt, hb]

theorem findKeyIdx_eq_none (u : String) (l : List cache_block)
    (h : ∀ blk ∈ l, blk.cache_uri_key ≠ u) : findKeyIdx u l = none := by
  induction l with
  | nil => rfl
  | cons b rest ih =>
    have hb : ¬ u = b.cache_uri_key := fun e => h b (List.mem_cons_self b rest) e.symm
    simp [findKeyIdx, hb, ih fun blk hm => h blk (List.mem_cons_of_mem b hm)]

/-- `cache_find` on a URI absent from the cache is a miss with no state
change. -/
theorem cache_find_miss (u : String) (c : Cache)
    (h : ∀ blk ∈ c.blocks, blk.cache_uri_key ≠ u) : cache_find u c = (none, c) := by
  simp [cache_find, findKeyIdx_eq_none u c.blocks h]

/-- With every block unpinned, the eviction loop terminates. -/
theorem evictLoop_isSome (req : Nat) (blocks : List cache_block) :
    ∀ cs sf, (∀ b ∈ blocks, b.readReferenceCnt = 0) →
    ∃ p, evictLoop req blocks cs sf = some p := by
  induction blocks with
  | nil =>
    intro cs sf _
    unfold evictLoop
    by_cases h : sf < req <;> simp [h]
  | cons b rest ih =>
    intro cs sf hall
    unfold evictLoop
    by_cases h : sf < req
    · have hb : b.readReferenceCnt = 0 := hall b (List.mem_cons_self b rest)
      simpa [h, hb] using ih _ _ fun x hx => hall x (List.mem_cons_of_mem b hx)
    · simp [h]

/-- With every block unpinned and a coherent size counter, the eviction
loop returns a cache whose counter is again the sum of the remaining
blocks' sizes, and it frees at least the requested amount unless it
empties the store. -/
theorem evictLoop_spec (req : Nat) (blocks : List cache_block) :
    ∀ sf, (∀ b ∈ blocks, b.readReferenceCnt = 0) →
    ∃ blocks' cs', evictLoop req blocks (sumSizes blocks) sf = some (blocks', cs') ∧
      cs' = sumSizes blocks' ∧ cs' ≤ sumSizes blocks ∧
      (req ≤ sf + (sumSizes blocks - cs') ∨ blocks' = []) := by
  induction blocks with
  | nil =>
    intro sf _
    refine ⟨[], sumSizes [], ?_, rfl, Nat.le_refl _, Or.inr rfl⟩
    unfold evictLoop
    by_cases h : sf < req <;> simp [h]
  | cons b rest ih =>
    intro sf hall
    by_cases h : sf < req
    · have hb : b.readReferenceCnt = 0 := hall b (List.mem_cons_self b rest)
      obtain ⟨blocks', cs', heq, hsum, hle, hdisj⟩ :=
        ih (sf + b.cache_obj_size) fun x hx => hall x (List.mem_cons_of_mem b hx)
      refine ⟨blocks', cs', ?_, hsum, ?_, ?_⟩
      · rw [evictLoop]
        have hcs : sumSizes (b :: rest) - b.cache_obj_size = sumSizes rest := by
          rw [sumSizes_cons]; omega
        simp only [h, if_pos, hb, ne_eq, not_true_eq_false, if_neg, not_false_eq_true, hcs]
        simpa [hb, hcs] using heq
      · rw [sumSizes_cons]; omega
      · rcases hdisj with hreq | hemp
        · left; rw [sumSizes_cons]; omega
        · right; exact hemp
    · refine ⟨b :: rest, sumSizes (b :: rest), ?_, rfl, Nat.le_refl _, Or.inl (by omega)⟩
      rw [evictLoop]
      simp [h]

/-- With every block unpinned, `cache_uri` returns, and the new block sits
at the tail of the resulting list. -/
theorem cache_uri_tail (u b : String) (n : Nat) (c : Cache)
    (hpin : ∀ blk ∈ c.blocks, blk.readReferenceCnt = 0) :
    ∃ c' l, cache_uri u b n c = some c' ∧ c'.blocks = l ++ [⟨u, b, n, 0⟩] := by
  by_cases hgt : c.cache_size + n > MAX_CACHE_SIZE
  · obtain ⟨⟨blocks', cs'⟩, hev⟩ :=
      evictLoop_isSome (c.cache_size + n - MAX_CACHE_SIZE) c.blocks c.cache_size 0 hpin
    have hcu : cache_uri u b n c =
        some { blocks := if blocks' = [] then [(⟨u, b, n, 0⟩ : cache_block)]
                         else blocks' ++ [⟨u, b, n, 0⟩],
               cache_size := cs' + n } := by
      simp [cache_uri, hgt, cache_eviction, hev]
    by_cases hb : blocks' = []
    · exact ⟨_, [], hcu, by simp [hb]⟩
    · exact ⟨_, blocks', hcu, by simp [hb]⟩
  · exact ⟨_, c.blocks, cache_uri_no_evict u b n c (by omega), rfl⟩

/-! ## Claims C1 - C5 -/

/-- Claim C1: the claim states that when the step-11 recheck
`cache_find(uri)` finds an existing entry, the worker releases the handle
(returning the entry's `readReferenceCnt` to its pre-lookup value) before
skipping the insert.  The code does not: starting from a cache holding
`"u"` unpinned (count 0) after a completed 0-byte relay, the recheck hits,
the insert is skipped, and the entry is left with `readReferenceCnt = 1` —
the handle is leaked and the entry stays pinned forever. -/
theorem c1_insert_recheck_leaks_handle :
    workerCacheInsertStep "u" "" 0 ⟨[⟨"u", "b", 1, 0⟩], 1⟩ =
      some ⟨[⟨"u", "b", 1, 1⟩], 1⟩ := rfl

/-- Claim C2, counterexample: a response of exactly `MAX_OBJECT_SIZE`
delivered bytes with its URI absent is NOT inserted — the worker's guard
is the strict `sizebuf < MAX_OBJECT_SIZE`, so the cache is returned
unchanged (empty) where the claim requires an entry for `"u"`. -/
theorem c2_exact_max_not_cached :
    workerCacheInsertStep "u" "" MAX_OBJECT_SIZE cache_init = some cache_init ∧
    cache_init.blocks = [] := ⟨rfl, rfl⟩

/-- Claim C2 (amended): the cacheability boundary is strict.  For every
unpinned cache state with the URI absent, a response of total size
strictly below `MAX_OBJECT_SIZE` is inserted (an entry with that URI, body
and size appears), while a response of `MAX_OBJECT_SIZE` bytes or more is
not inserted (the cache is unchanged). -/
theorem c2_strict_boundary (c : Cache) (u b : String) (n : Nat)
    (hpin : ∀ blk ∈ c.blocks, blk.readReferenceCnt = 0)
    (habs : ∀ blk ∈ c.blocks, blk.cache_uri_key ≠ u) :
    (n < MAX_OBJECT_SIZE →
      ∃ c', workerCacheInsertStep u b n c = some c' ∧
        ∃ blk ∈ c'.blocks, blk.cache_uri_key = u ∧ blk.cache_obj = b ∧
          blk.cache_obj_size = n) ∧
    (MAX_OBJECT_SIZE ≤ n → workerCacheInsertStep u b n c = some c) := by
  constructor
  · intro hlt
    obtain ⟨c', l, hcu, hblocks⟩ := cache_uri_tail u b n c hpin
    refine ⟨c', ?_, ⟨u, b, n, 0⟩, by simp [hblocks], rfl, rfl, rfl⟩
    simp [workerCacheInsertStep, hlt, cache_find_miss u c habs, hcu]
  · intro hge
    simp [workerCacheInsertStep, Nat.not_lt.mpr hge]

/-- Witness for the amended C2 at a concrete input: a 5-byte body with an
absent URI is inserted into the empty cache. -/
theorem c2_strict_boundary_witness :
    ∃ c', workerCacheInsertStep "u" "B" 5 cache_init = some c' ∧
      ∃ blk ∈ c'.blocks, blk.cache_uri_key = "u" ∧ blk.cache_obj = "B" ∧
        blk.cache_obj_size = 5 :=
  (c2_strict_boundary cache_init "u" "B" 5 (by simp [cache_init])
    (by simp [cache_init])).1 (by decide)

/-- Claim C3: the claim states that at most `MAX_OBJECT_SIZE` bytes in
total are ever written into the candidate buffer and that every copy stays
within its bounds.  The code checks `sizebuf < MAX_OBJECT_SIZE` and then
memcpys the whole chunk: with 13 origin chunks of `MAXLINE = 8192` bytes,
the 13th memcpy starts at offset 98304 (the guard still passes) and writes
8192 bytes, ending at 106496 — past the 102400-byte buffer — and in total
106496 bytes are written into it. -/
theorem c3_tee_buffer_overflow :
    (98304, 8192) ∈ teeWrites (List.replicate 13 MAXLINE) 0 ∧
    MAX_OBJECT_SIZE < 98304 + 8192 ∧
    bytesWrittenToBuf (List.replicate 13 MAXLINE) = 106496 ∧
    MAX_OBJECT_SIZE < 106496 := by
  refine ⟨by decide, by decide, by decide, by decide⟩

/-- Claim C4, counterexample: `cache_uri` performs no presence check.
Inserting `"A"` into a cache already holding `"A"` appends a second block,
leaving two entries with the same URI, where the claim requires a
no-op. -/
theorem c4_duplicate_insert :
    cache_uri "A" "x" 1 ⟨[⟨"A", "x", 1, 0⟩], 1⟩ =
      some ⟨[⟨"A", "x", 1, 0⟩, ⟨"A", "x", 1, 0⟩], 2⟩ ∧
    ([(⟨"A", "x", 1, 0⟩ : cache_block), ⟨"A", "x", 1, 0⟩].countP
      (fun blk => blk.cache_uri_key == "A")) = 2 := ⟨rfl, by decide⟩

/-- Claim C4 (amended): an insert whose URI is already present is not a
no-op: whenever the insert triggers no eviction, `cache_uri` appends a
fresh block at the tail regardless of presence, and the number of blocks
with that URI grows by one (duplicates are possible).  At-most-one entry
per URI relies on callers not inserting a present URI. -/
theorem c4_insert_appends_duplicate (c : Cache) (u b : String) (n : Nat)
    (h : c.cache_size + n ≤ MAX_CACHE_SIZE) :
    ∃ c', cache_uri u b n c = some c' ∧
      c'.blocks = c.blocks ++ [⟨u, b, n, 0⟩] ∧
      c'.blocks.countP (fun blk => blk.cache_uri_key == u) =
        c.blocks.countP (fun blk => blk.cache_uri_key == u) + 1 := by
  refine ⟨_, cache_uri_no_evict u b n c h, rfl, ?_⟩
  simp [List.countP_append, List.countP_cons]

/-- Witness for the amended C4 at a concrete input: re-inserting the
present URI `"A"` yields two `"A"` entries. -/
theorem c4_insert_appends_duplicate_witness :
    ∃ c', cache_uri "A" "x" 1 ⟨[⟨"A", "x", 1, 0⟩], 1⟩ = some c' ∧
      c'.blocks = [⟨"A", "x", 1, 0⟩] ++ [⟨"A", "x", 1, 0⟩] ∧
      c'.blocks.countP (fun blk => blk.cache_uri_key == "A") =
        [(⟨"A", "x", 1, 0⟩ : cache_block)].countP
          (fun blk => blk.cache_uri_key == "A") + 1 :=
  c4_insert_appends_duplicate ⟨[⟨"A", "x", 1, 0⟩], 1⟩ "A" "x" 1 (by decide)

/-- Claim C5, counterexample: the reader-release path is an unconditional
`readReferenceCnt--`.  Applied to an entry whose count is already zero it
silently drives the count to `-1`; no fatal invariant violation exists in
the code. -/
theorem c5_release_drives_negative :
    releaseRef ⟨[⟨"u", "b", 1, 0⟩], 1⟩ 0 = ⟨[⟨"u", "b", 1, -1⟩], 1⟩ := rfl

theorem decRefAt_get? (l : List cache_block) (i : Nat) (blk : cache_block)
    (h : l.get? i = some blk) :
    (decRefAt l i).get? i =
      some { blk with readReferenceCnt := blk.readReferenceCnt - 1 } := by
  induction l generalizing i with
  | nil => simp at h
  | cons hd tl ih =>
    cases i with
    | zero =>
      have hhd : hd = blk := by simpa using h
      subst hhd
      rfl
    | succ j =>
      have hj : tl.get? j = some blk := by simpa using h
      simpa [decRefAt] using ih j hj

/-- Claim C5 (amended): release decrements the handle's
`readReferenceCnt` by exactly one, unconditionally: for a positive count
this is the claimed decrement-by-one, but for a zero count the result is
`-1` with no error — the invariant-violation failure the claim describes
does not exist. -/
theorem c5_release_decrements (c : Cache) (i : Nat) (blk : cache_block)
    (h : c.blocks.get? i = some blk) :
    (releaseRef c i).blocks.get? i =
      some { blk with readReferenceCnt := blk.readReferenceCnt - 1 } := by
  simpa [releaseRef] using decRefAt_get? c.blocks i blk h

/-- Witness for the amended C5 at a concrete input: releasing a handle on
an entry pinned twice leaves it pinned once. -/
theorem c5_release_decrements_witness :
    (releaseRef ⟨[⟨"u", "b", 1, 2⟩], 1⟩ 0).blocks.get? 0 =
      some ⟨"u", "b", 1, 1⟩ := by
  simpa using c5_release_decrements ⟨[⟨"u", "b", 1, 2⟩], 1⟩ 0 ⟨"u", "b", 1, 2⟩ rfl

/-! ## Claim C6 -/

/-- Claim C6: inserting a body of at most `MAX_OBJECT_SIZE` bytes into an
all-unpinned cache that satisfies its size invariants triggers eviction
exactly when the total would exceed `MAX_CACHE_SIZE` (the eviction request
is literally `(cache_size + buffSize) - MAX_CACHE_SIZE` in `cache_uri`),
and after the insert returns the cap `cache_size ≤ MAX_CACHE_SIZE` holds
again and `cache_size` equals the sum of the present entries' sizes; when
no eviction is needed the insert is a plain append at the tail. -/
theorem c6_insert_restores_cap (c : Cache) (u b : String) (n : Nat)
    (hpin : ∀ blk ∈ c.blocks, blk.readReferenceCnt = 0)
    (hsum : c.cache_size = sumSizes c.blocks)
    (hcap : c.cache_size ≤ MAX_CACHE_SIZE)
    (hobj : n ≤ MAX_OBJECT_SIZE) :
    ∃ c', cache_uri u b n c = some c' ∧
      c'.cache_size ≤ MAX_CACHE_SIZE ∧
      c'.cache_size = sumSizes c'.blocks ∧
      (c.cache_size + n ≤ MAX_CACHE_SIZE → c'.blocks = c.blocks ++ [⟨u, b, n, 0⟩]) := by
  have hms : MAX_OBJECT_SIZE ≤ MAX_CACHE_SIZE := by decide
  by_cases hgt : c.cache_size + n > MAX_CACHE_SIZE
  · obtain ⟨blocks', cs', hev, hsum', hle', hdisj⟩ :=
      evictLoop_spec (c.cache_size + n - MAX_CACHE_SIZE) c.blocks 0 hpin
    rw [← hsum] at hev hle' hdisj
    have hcu : cache_uri u b n c =
        some { blocks := if blocks' = [] then [(⟨u, b, n, 0⟩ : cache_block)]
                         else blocks' ++ [⟨u, b, n, 0⟩],
               cache_size := cs' + n } := by
      simp [cache_uri, hgt, cache_eviction, hev]
    refine ⟨_, hcu, ?_, ?_, fun hle => absurd hle (by omega)⟩
    · show cs' + n ≤ MAX_CACHE_SIZE
      rcases hdisj with hreq | hemp
      · omega
      · have h0 : cs' = 0 := by rw [hsum', hemp, sumSizes_nil]
        omega
    · show cs' + n = sumSizes (if blocks' = [] then [(⟨u, b, n, 0⟩ : cache_block)]
        else blocks' ++ [⟨u, b, n, 0⟩])
      by_cases hb : blocks' = []
      · have h0 : cs' = 0 := by rw [hsum', hb, sumSizes_nil]
        simp [hb, sumSizes_cons, sumSizes_nil, h0]
      · simp [hb, sumSizes_append, sumSizes_cons, sumSizes_nil, hsum']
  · have hcu := cache_uri_no_evict u b n c (by omega)
    refine ⟨_, hcu, ?_, ?_, fun _ => rfl⟩
    · show c.cache_size + n ≤ MAX_CACHE_SIZE
      omega
    · show c.cache_size + n = sumSizes (c.blocks ++ [⟨u, b, n, 0⟩])
      simp [sumSizes_append, sumSizes_cons, sumSizes_nil, hsum]

/-- Witness for C6 at a concrete input: a full 1,000,000-byte cache takes
a 102,400-byte insert; eviction frees the head and the cap is restored. -/
theorem c6_insert_restores_cap_witness :
    ∃ c', cache_uri "N" "y" 102400 ⟨[⟨"O", "z", 1000000, 0⟩], 1000000⟩ = some c' ∧
      c'.cache_size ≤ MAX_CACHE_SIZE ∧
      c'.cache_size = sumSizes c'.blocks ∧
      ((⟨[⟨"O", "z", 1000000, 0⟩], 1000000⟩ : Cache).cache_size + 102400 ≤ MAX_CACHE_SIZE →
        c'.blocks = [⟨"O", "z", 1000000, 0⟩] ++ [⟨"N", "y", 102400, 0⟩]) :=
  c6_insert_restores_cap ⟨[⟨"O", "z", 1000000, 0⟩], 1000000⟩ "N" "y" 102400
    (by decide) (by decide) (by decide) (by decide)

/-! ## Claim C7 -/

/-- Claim C7: the LRU order law.  Starting from the freshly initialised
cache, inserting distinct URIs `a`, `b`, `c` (no intervening lookups, and
sizes small enough that no eviction triggers) yields head-to-tail order
`[a, b, c]`; a single `cache_find a` then returns a handle on `a` with its
reference count incremented from 0 to 1 and promotes `a` to the tail,
leaving head-to-tail order `[b, c, a]` with counts `[0, 0, 1]`. -/
theorem c7_lru_order (a b c xa xb xc : String) (na nb nc : Nat)
    (hab : a ≠ b) (hac : a ≠ c) (hbc : b ≠ c)
    (hcap : na + nb + nc ≤ MAX_CACHE_SIZE) :
    ∃ c3 blkA,
      ((cache_uri a xa na cache_init).bind (cache_uri b xb nb)).bind
          (cache_uri c xc nc) = some c3 ∧
      c3.blocks.map (·.cache_uri_key) = [a, b, c] ∧
      (cache_find a c3).1 = some blkA ∧
      blkA.readReferenceCnt = 1 ∧
      (cache_find a c3).2.blocks.map (·.cache_uri_key) = [b, c, a] ∧
      (cache_find a c3).2.blocks.map (·.readReferenceCnt) = [0, 0, 1] := by
  have h1 : cache_uri a xa na cache_init = some ⟨[⟨a, xa, na, 0⟩], na⟩ := by
    simpa [cache_init] using
      cache_uri_no_evict a xa na cache_init (by simp [cache_init]; omega)
  have h2 : cache_uri b xb nb ⟨[⟨a, xa, na, 0⟩], na⟩ =
      some ⟨[⟨a, xa, na, 0⟩, ⟨b, xb, nb, 0⟩], na + nb⟩ := by
    simpa using cache_uri_no_evict b xb nb ⟨[⟨a, xa, na, 0⟩], na⟩ (by simp; omega)
  have h3 : cache_uri c xc nc ⟨[⟨a, xa, na, 0⟩, ⟨b, xb, nb, 0⟩], na + nb⟩ =
      some ⟨[⟨a, xa, na, 0⟩, ⟨b, xb, nb, 0⟩, ⟨c, xc, nc, 0⟩], na + nb + nc⟩ := by
    simpa using
      cache_uri_no_evict c xc nc ⟨[⟨a, xa, na, 0⟩, ⟨b, xb, nb, 0⟩], na + nb⟩
        (by simp; omega)
  refine ⟨⟨[⟨a, xa, na, 0⟩, ⟨b, xb, nb, 0⟩, ⟨c, xc, nc, 0⟩], na + nb + nc⟩,
    ⟨a, xa, na, 1⟩, ?_, by simp, ?_, rfl, ?_, ?_⟩ <;>
    simp [h1, h2, h3, cache_find, findKeyIdx]

/-- Witness for C7 at a concrete input: URIs `"A"`, `"B"`, `"C"` of size 1
each. -/
theorem c7_lru_order_witness :
    ∃ c3 blkA,
      ((cache_uri "A" "x" 1 cache_init).bind (cache_uri "B" "y" 1)).bind
          (cache_uri "C" "z" 1) = some c3 ∧
      c3.blocks.map (·.cache_uri_key) = ["A", "B", "C"] ∧
      (cache_find "A" c3).1 = some blkA ∧
      blkA.readReferenceCnt = 1 ∧
      (cache_find "A" c3).2.blocks.map (·.cache_uri_key) = ["B", "C", "A"] ∧
      (cache_find "A" c3).2.blocks.map (·.readReferenceCnt) = [0, 0, 1] :=
  c7_lru_order "A" "B" "C" "x" "y" "z" 1 1 1 (by decide) (by decide) (by decide)
    (by decide)

/-! ## Claim C8 -/

theorem join_cons (s : String) (l : List String) :
    String.join (s :: l) = s ++ String.join l := by
  apply String.ext
  simp [String.join_eq]

/-- A line that passes the `Host` substring test is nonempty. -/
theorem strstrB_host_ne_empty (l : String) (h : strstrB l host_key = true) :
    l.length ≠ 0 := by
  intro hlen
  obtain ⟨data⟩ := l
  have hdata : data = [] := List.length_eq_zero.mp (by simpa [String.length] using hlen)
  subst hdata
  simp [strstrB, hasSubstr, host_key, List.isPrefixOf] at h

/-- On a line that does not match `Host`, the source's forwarding
condition coincides with `keepsHeaderLine`. -/
theorem keep_equiv (line : String) (hh : strstrB line host_key = false) :
    (!strstrB line connection_key && !strstrB line proxy_connection_key &&
     !strstrB line user_agent_key && !strstrB line host_key) = keepsHeaderLine line := by
  simp [keepsHeaderLine, hh]

/-- The header-gathering loop computes the last consumed `Host`-matching
line (defaulting to the accumulator) and appends, in order, exactly the
consumed lines that match none of the four keys. -/
theorem gatherHeaders_eq (lines : List String) : ∀ h o,
    gatherHeaders lines h o =
      (((lines.takeWhile (fun l => l ≠ endof_hdr)).filter
          (fun l => strstrB l host_key)).getLastD h,
       o ++ String.join ((lines.takeWhile (fun l => l ≠ endof_hdr)).filter keepsHeaderLine)) := by
  induction lines with
  | nil =>
    intro h o
    simp [gatherHeaders, String.join]
  | cons line rest ih =>
    intro h o
    by_cases he : line = endof_hdr
    · simp [gatherHeaders, he, String.join]
    · have hp : (fun l => decide (l ≠ endof_hdr)) line = true := by simp [he]
      rw [List.takeWhile_cons_of_pos (p := fun l => decide (l ≠ endof_hdr)) hp]
      by_cases hh : strstrB line host_key = true
      · have hk : ¬ (keepsHeaderLine line = true) := by simp [keepsHeaderLine, hh]
        rw [gatherHeaders, if_neg he, if_pos hh, ih line o,
          List.filter_cons_of_pos (p := fun l => strstrB l host_key) hh,
          List.filter_cons_of_neg (p := keepsHeaderLine) hk, List.getLastD_cons]
      · have hh' : strstrB line host_key = false := by simpa using hh
        by_cases hk : keepsHeaderLine line = true
        · have hcond : (!strstrB line connection_key && !strstrB line proxy_connection_key &&
              !strstrB line user_agent_key && !strstrB line host_key) = true := by
            rw [keep_equiv line hh']; exact hk
          rw [gatherHeaders, if_neg he, if_neg hh, if_pos hcond, ih h (o ++ line),
            List.filter_cons_of_neg (p := fun l => strstrB l host_key) hh,
            List.filter_cons_of_pos (p := keepsHeaderLine) hk, join_cons,
            ← String.append_assoc]
        · have hcond : ¬((!strstrB line connection_key && !strstrB line proxy_connection_key &&
              !strstrB line user_agent_key && !strstrB line host_key) = true) := by
            rw [keep_equiv line hh']; exact hk
          rw [gatherHeaders, if_neg he, if_neg hh, if_neg hcond, ih h o,
            List.filter_cons_of_neg (p := fun l => strstrB l host_key) hh,
            List.filter_cons_of_neg (p := keepsHeaderLine) hk]

/-- Claim C8: the upstream request built by `create_server_http_request`
is exactly the `GET <path> HTTP/1.0` request line, then the `Host` header
(the client's own `Host`-matching line when one was consumed, otherwise
synthesized from the parsed host), then `Connection: close`,
`Proxy-Connection: close` and the fixed `User-Agent` line in that order,
then every remaining consumed client line that matches none of the four
keys (case-sensitive substring test) verbatim in order received,
terminated by the empty CRLF line — i.e. it coincides with
`upstreamRequestSpec`, the spec's wording of §4.2. -/
theorem c8_upstream_request (hostname path : String) (port : Nat)
    (clientLines : List String) :
    create_server_http_request hostname path port clientLines =
      upstreamRequestSpec hostname path clientLines := by
  simp only [create_server_http_request, upstreamRequestSpec,
    gatherHeaders_eq clientLines "" "", String.empty_append]
  rw [List.getLastD_eq_getLast?]
  cases hF : ((clientLines.takeWhile (fun l => l ≠ endof_hdr)).filter
      (fun l => strstrB l host_key)).getLast? with
  | none => simp
  | some x =>
    have hx : strstrB x host_key = true :=
      (List.mem_filter.mp (List.mem_of_getLast?_eq_some hF)).2
    have hlen : ¬ x.length = 0 := strstrB_host_ne_empty x hx
    simp [hlen]

/-! ## Claim C9 -/

/-- Claim C9: for every successfully read request line, the worker answers
`400 Bad Request` exactly when `sscanf` fails to produce the three tokens
or the version character after `HTTP/1.` is neither `0` nor `1`; on a
well-formed line it answers `501 Not Implemented` exactly when the method
is not `"GET"`, and proceeds (the only outcome that reaches the
origin-contacting code) exactly when it is. -/
theorem c9_request_line_rejections (line : String) :
    (requestLineDecision line = ReqDecision.bad400 ↔
      scanRequestLine line = none ∨
        ∃ m u v, scanRequestLine line = some (m, u, v) ∧ v ≠ '0' ∧ v ≠ '1') ∧
    (∀ m u v, scanRequestLine line = some (m, u, v) → (v = '0' ∨ v = '1') →
      ((requestLineDecision line = ReqDecision.notImpl501 ↔ m ≠ "GET") ∧
       (requestLineDecision line = ReqDecision.proceed m u ↔ m = "GET"))) := by
  cases hscan : scanRequestLine line with
  | none =>
    constructor
    · simp [requestLineDecision, hscan]
    · intro m u v heq
      exact absurd heq (by simp)
  | some t =>
    obtain ⟨m, u, v⟩ := t
    constructor
    · have hrhs : ((some (m, u, v) : Option (String × String × Char)) = none ∨
          ∃ m' u' v', (some (m, u, v) : Option (String × String × Char)) = some (m', u', v') ∧
            v' ≠ '0' ∧ v' ≠ '1') ↔
          (v ≠ '0' ∧ v ≠ '1') := by
        constructor
        · rintro (hnone | ⟨m', u', v', heq, h0, h1⟩)
          · exact absurd hnone (by simp)
          · simp only [Option.some.injEq, Prod.mk.injEq] at heq
            obtain ⟨hm, hu, hv⟩ := heq
            subst hm; subst hu; subst hv
            exact ⟨h0, h1⟩
        · intro hv
          exact Or.inr ⟨m, u, v, rfl, hv.1, hv.2⟩
      rw [hrhs]
      by_cases hv : v ≠ '0' ∧ v ≠ '1'
      · simp [requestLineDecision, hscan, hv]
      · by_cases hm : m = "GET" <;> simp [requestLineDecision, hscan, hv, hm]
    · intro m' u' v' heq hv01
      simp only [Option.some.injEq, Prod.mk.injEq] at heq
      obtain ⟨hm, hu, hv⟩ := heq
      subst hm; subst hu; subst hv
      have hv2 : ¬(v ≠ '0' ∧ v ≠ '1') := by
        rcases hv01 with h | h <;> simp [h]
      constructor <;> by_cases hm : m = "GET" <;>
        simp [requestLineDecision, hscan, hv2, hm]

/-- Witness for C9 at a concrete input: `PUT /index.html HTTP/1.0` scans
to a well-formed triple with version `0` and a non-GET method, and the
decision is `501 Not Implemented`. -/
theorem c9_request_line_rejections_witness :
    requestLineDecision "PUT /index.html HTTP/1.0\r\n" = ReqDecision.notImpl501 :=
  ((c9_request_line_rejections "PUT /index.html HTTP/1.0\r\n").2 "PUT" "/index.html" '0'
    rfl (Or.inl rfl)).1.mpr (by decide)

/-! ## Claim C10 -/

/-- Claim C10: `clienterror` either writes the complete response — the
headers (status line, `Content-Type`, and a `Content-Length` equal to the
length of the very body string written) first, then the body — or, exactly
when the formatted body would fill its `MAXBUF` buffer or the formatted
headers would fill their `MAXLINE` buffer, returns having written nothing
at all; it never emits headers advertising a body it then truncates. -/
theorem c10_clienterror_all_or_nothing (errnum shortmsg longmsg : String) :
    (clienterror errnum shortmsg longmsg = [] ∧
      (MAXBUF ≤ (errorBody errnum shortmsg longmsg).length ∨
       MAXLINE ≤ (errorHeaders errnum shortmsg
          (errorBody errnum shortmsg longmsg).length).length)) ∨
    (clienterror errnum shortmsg longmsg =
        [errorHeaders errnum shortmsg (errorBody errnum shortmsg longmsg).length,
         errorBody errnum shortmsg longmsg] ∧
      (errorBody errnum shortmsg longmsg).length < MAXBUF ∧
      (errorHeaders errnum shortmsg
        (errorBody errnum shortmsg longmsg).length).length < MAXLINE) := by
  by_cases h1 : (errorBody errnum shortmsg longmsg).length ≥ MAXBUF
  · exact Or.inl ⟨by simp [clienterror, h1], Or.inl h1⟩
  · by_cases h2 : (errorHeaders errnum shortmsg
        (errorBody errnum shortmsg longmsg).length).length ≥ MAXLINE
    · exact Or.inl ⟨by simp [clienterror, h1, h2], Or.inr h2⟩
    · exact Or.inr ⟨by simp [clienterror, h1, h2], by omega, by omega⟩
